import Mathlib

/-!
# marathon-daemonset: the reconciliation engine of `main.go`

A shallow embedding of the daemonset reconciler.  Go strings are modelled by
Lean `String`s (the separators used by the program are single ASCII bytes, so
splitting by character agrees with splitting by byte on UTF-8 text), Go `int`
by `Int` (every count is at most the number of agents times the number of pieces
of a label, far below 2^63), Go maps by association lists read with `List.lookup`, and the
`interface{}` values produced by `encoding/json` by `JsonValue`.  Logging calls
are left out: they do not influence any value the program computes.
-/

set_option autoImplicit false
set_option linter.dupNamespace false

namespace MarathonDaemonset

/-! ## Constants (`main.go`, lines 18-27) -/

def mesosAgentsPath : String := "/master/slaves"
def marathonAppPath : String := "/v2/apps"
def marathonLabelName : String := "daemonset"
def marathonLabelValueSeparator : String := "|"
def marathonLabelAllName : String := "all"
def marathonLabelAttrName : String := "attr"

/-! ## Data model -/

/-- What `encoding/json` stores in an `interface{}`: `nil` for JSON null, `bool`,
`float64` for every JSON number (held here as the rational it denotes),
`string`, `[]interface{}` and `map[string]interface{}`. -/
inductive JsonValue where
  | null : JsonValue
  | bool (b : Bool) : JsonValue
  | number (q : ℚ) : JsonValue
  | str (s : String) : JsonValue
  | array (xs : List JsonValue) : JsonValue
  | object (kvs : List (String × JsonValue)) : JsonValue

/-- One element of `Agents.Agents` (lines 73-85).  The resource records of the
struct are never read by the program and are not carried. -/
structure Agent where
  ID : String
  Hostname : String
  Attributes : List (String × JsonValue)
  Active : Bool
  Version : String

/-- The type `Agents` (lines 72-86): the decoded `/master/slaves` response. -/
structure Agents where
  Agents : List Agent

/-- The type `MarathonApp` (lines 110-114); the field `Type` is spelled `Typ`,
`Type` being reserved. -/
structure MarathonApp where
  Attributes : String
  ID : String
  Typ : String
  deriving DecidableEq

/-- The zero value of `MarathonApp`, as declared by `var marathonApp MarathonApp`. -/
def MarathonApp.zero : MarathonApp := { Attributes := "", ID := "", Typ := "" }

/-! ## Go primitives used by the counting functions -/

/-- Indexing a `map[string]interface{}`: a missing key yields the zero value of
`interface{}`, which is `nil`. -/
def mapIndex (m : List (String × JsonValue)) (k : String) : JsonValue :=
  match m.lookup k with
  | some v => v
  | none => JsonValue.null

/-- The Go comparison `x == s` of an `interface{}` with a `string`: true exactly
when the dynamic type of `x` is `string` and the two strings are equal. -/
def ifaceEqString (x : JsonValue) (s : String) : Bool :=
  match x with
  | JsonValue.str t => t == s
  | _ => false

/-- Splitting a character sequence at every occurrence of `sep`; the empty
sequence gives one empty piece. -/
def splitChars (sep : Char) : List Char → List (List Char)
  | [] => [[]]
  | c :: cs =>
    if c = sep then [] :: splitChars sep cs
    else
      match splitChars sep cs with
      | [] => [[c]]
      | p :: ps => (c :: p) :: ps

/-- The call `strings.Split(s, sep)` for a separator of one ASCII character, the
only way the program calls it (`","` and `"|"`). -/
def stringsSplit (s : String) (sep : Char) : List String :=
  (splitChars sep s.data).map String.mk

/-! ## Counting agents (lines 467-506) -/

/-- The method `Agents.getAgentCount` (lines 468-470): `len(a.Agents)`. -/
def Agents.getAgentCount (a : MarathonDaemonset.Agents) : Int :=
  (a.Agents.length : Int)

/-- The method `Agents.getAgentCountByAttribute` (lines 489-506): the loop
increments `slaveCount` for every agent with `v.Attributes[attr] == attrValue`. -/
def Agents.getAgentCountByAttribute (a : MarathonDaemonset.Agents) (attr : String) (attrValue : String) : Int :=
  a.Agents.foldl
    (fun slaveCount v =>
      if ifaceEqString (mapIndex v.Attributes attr) attrValue then slaveCount + 1
      else slaveCount)
    0

/-- The body of the loop of `getAgentCountByAttributes` (lines 477-483) for one
piece `attr` of the label. -/
def attributePairStep (a : MarathonDaemonset.Agents) (agentCount : Int) (attr : String) : Int :=
  match stringsSplit attr '|' with
  | [name, value] => agentCount + a.getAgentCountByAttribute name value
  | _ => agentCount

/-- The method `Agents.getAgentCountByAttributes` (lines 473-486). -/
def Agents.getAgentCountByAttributes (a : MarathonDaemonset.Agents) (attributes : String) : Int :=
  (stringsSplit attributes ',').foldl (attributePairStep a) 0

/-- The methods `getPublicAgentCount` and `getPrivateAgentCount` (lines 509-520). -/
def Agents.getPublicAgentCount (a : MarathonDaemonset.Agents) : Int :=
  a.getAgentCountByAttribute "tier" "public"

def Agents.getPrivateAgentCount (a : MarathonDaemonset.Agents) : Int :=
  a.getAgentCountByAttribute "tier" "private"

/-! ## Configuration, HTTP and process state -/

/-- The type `Config` (`config.go`, lines 14-23); `UpdateFrequency` in nanoseconds. -/
structure Config where
  MesosHost : String
  MarathonHost : String
  ServerPort : Int
  UpdateFrequency : Int
  DryRun : Bool
  Debug : Bool
  SkipTls : Bool
  Authorization : String

/-- An outbound request as built by `HttpRequest` (lines 116-122): method, URL,
body (`none` for the `nil` reader of a GET) and the `Authorization` header when
one is set. -/
structure Request where
  method : String
  url : String
  body : Option String
  authorization : Option String
  deriving DecidableEq

/-- The two results of `client.Do`: an error, or a response with its status code
and the bytes of its body. -/
inductive HttpResult where
  | failure (err : String) : HttpResult
  | response (StatusCode : Int) (Body : List UInt8) : HttpResult

/-- What lies outside the program: the scheduler answering requests, and
`json.Unmarshal` into the struct of `MarathonAppInstanceCount.Parse`
(lines 223-230), giving the `app.instances` field or an error. -/
structure World where
  http : Request → HttpResult
  unmarshalInstances : List UInt8 → Except String Int

/-- The package-level variables written while applications are processed: the two
counters (lines 39 and 48) and, for observation, the requests handed to
`client.Do` so far, in order.  The counters are `float64` in the source; they
start at 0 and only ever change by `++`, so they hold whole numbers, and `++` on
a `float64` is exact below 2^53: they are modelled by `Nat`. -/
structure Globals where
  appsUpdatedCount : Nat
  appsUpdatedErrorCount : Nat
  sent : List Request
  deriving DecidableEq

/-- The function `HttpRequest` (lines 116-122). -/
def HttpRequest (config : Config) (w : World) (method : String) (url : String)
    (body : Option String) (g : Globals) : HttpResult × Globals :=
  let req : Request :=
    { method := method, url := url, body := body,
      authorization := if config.Authorization ≠ "" then some config.Authorization else none }
  (w.http req, { g with sent := g.sent ++ [req] })

/-- The function `HttpGet` (lines 124-126). -/
def HttpGet (config : Config) (w : World) (url : String) (g : Globals) : HttpResult × Globals :=
  HttpRequest config w "GET" url none g

/-- The function `HttpPut` (lines 128-130). -/
def HttpPut (config : Config) (w : World) (url : String) (body : String) (g : Globals) :
    HttpResult × Globals :=
  HttpRequest config w "PUT" url (some body) g

/-- The request body built on line 574, `fmt.Sprintf` of `\x7b "instances": %d \x7d`. -/
def instanceJSON (count : Int) : String :=
  "\x7b \"instances\": " ++ toString count ++ " \x7d"

/-- The URL of one application, built on lines 539 and 577. -/
def appUrl (config : Config) (service : String) : String :=
  config.MarathonHost ++ marathonAppPath ++ service

/-! ## Reading and writing the instance count (lines 534-636) -/

/-- The function `getCurrentInstanceCount` (lines 535-568): the count and the
error (`none` for `nil`). -/
def getCurrentInstanceCount (config : Config) (w : World) (service : String) (g : Globals) :
    (Int × Option String) × Globals :=
  match HttpGet config w (appUrl config service) g with
  | (HttpResult.failure err, g1) => ((0, some err), g1)
  | (HttpResult.response StatusCode appBody, g1) =>
    if StatusCode = 200 then
      match w.unmarshalInstances appBody with
      | Except.error err => ((-1, some err), g1)
      | Except.ok Instances => ((Instances, none), g1)
    else ((0, some ("Non 200 status code returned: " ++ toString StatusCode)), g1)

/-- The function `updateInstanceCount` (lines 571-636): the returned error
(`none` for `nil`) and the state after the call. -/
def updateInstanceCount (config : Config) (w : World) (count : Int) (service : String)
    (g : Globals) : Option String × Globals :=
  if config.DryRun then (none, g)
  else
    match HttpPut config w (appUrl config service) (instanceJSON count) g with
    | (HttpResult.failure err, g1) => (some err, g1)
    | (HttpResult.response StatusCode _, g1) =>
      if StatusCode = 200 then
        (none, { g1 with appsUpdatedCount := g1.appsUpdatedCount + 1 })
      else if StatusCode = 409 then
        (some ("409 status code (conflict) returned: " ++ toString StatusCode), g1)
      else (some ("A non expected statuscode returned: " ++ toString StatusCode), g1)

/-! ## Processing one application (lines 325-380) -/

/-- The value given to `agentCount` on lines 341-356 of `processApp`. -/
def agentCountFor (app : MarathonApp) (agents : Agents) : Int :=
  if app.Typ = marathonLabelAllName then agents.getAgentCount
  else agents.getAgentCountByAttributes app.Attributes

/-- The function `processApp` (lines 325-380). -/
def processApp (config : Config) (w : World) (app : MarathonApp) (agents : Agents)
    (g : Globals) : Globals :=
  match getCurrentInstanceCount config w app.ID g with
  | ((_, some _), g1) => { g1 with appsUpdatedErrorCount := g1.appsUpdatedErrorCount + 1 }
  | ((serviceInstanceCount, none), g1) =>
    let agentCount := agentCountFor app agents
    if agentCount > 0 ∧ serviceInstanceCount ≠ agentCount then
      match updateInstanceCount config w agentCount app.ID g1 with
      | (some _, g2) => { g2 with appsUpdatedErrorCount := g2.appsUpdatedErrorCount + 1 }
      | (none, g2) => g2
    else g1

/-! ## The application registry (lines 105-210) -/

/-- One element of `tmp.Apps` in `MarathonApps.Parse` (lines 168-174). -/
structure AppRecord where
  ID : String
  Instances : Int
  Labels : List (String × String)

/-- The type `MarathonApps` (line 107): a map from application ID to
`MarathonApp`, held as an association list without repeated keys. -/
abbrev MarathonApps := List (String × MarathonApp)

/-- The Go assignment `m[k] = v`: replace the entry of `k`, or add one. -/
def mapSet : MarathonApps → String → MarathonApp → MarathonApps
  | [], k, v => [(k, v)]
  | (k', v') :: rest, k, v =>
    if k' = k then (k, v) :: rest else (k', v') :: mapSet rest k v

/-- The body of the loop of `MarathonApps.Parse` (lines 184-202) for one
application of the listing. -/
def parseStep (m : MarathonApps) (app : AppRecord) : MarathonApps :=
  match app.Labels.lookup marathonLabelName with
  | some val =>
    if val = marathonLabelAllName then
      mapSet m app.ID { MarathonApp.zero with Typ := marathonLabelAllName, ID := app.ID }
    else
      mapSet m app.ID
        { MarathonApp.zero with Attributes := val, Typ := marathonLabelAttrName, ID := app.ID }
  | none => m

/-- The method `MarathonApps.Parse` (lines 164-210): the map after the call and
the returned error.  `unmarshal` is `json.Unmarshal` into `tmp` (lines 168-178);
when it fails the method returns before the map is reset. -/
def MarathonApps.Parse (unmarshal : List UInt8 → Except String (List AppRecord))
    (m : MarathonApps) (data : List UInt8) : MarathonApps × Option String :=
  match unmarshal data with
  | Except.error err => (m, some err)
  | Except.ok apps => (apps.foldl parseStep [], none)

/-! ## One cycle of the control loop (lines 133-161, 273-322, 397-428) -/

/-- The two other uses of `json.Unmarshal`: into `tmp` of `MarathonApps.Parse`
(lines 168-178), and into the package-level `agents` (line 415), which may be
altered even when an error is returned, hence the old value as an argument. -/
structure Decoders where
  unmarshalApps : List UInt8 → Except String (List AppRecord)
  unmarshalAgents : List UInt8 → Agents → Agents × Option String

/-- The package-level variables of the loop: the counters and the request trace,
the registry `marathonApps` and the inventory `agents` (lines 34-35). -/
structure LoopState where
  globals : Globals
  marathonApps : MarathonApps
  agents : Agents

/-- The method `MarathonApps.Get` (lines 133-161): the body and the error; the
`nil` slice is the empty list.  A status other than 200 gives `nil, nil`. -/
def MarathonApps.Get (config : Config) (w : World) (g : Globals) :
    (List UInt8 × Option String) × Globals :=
  match HttpGet config w (config.MarathonHost ++ marathonAppPath) g with
  | (HttpResult.failure err, g1) =>
    (([], some ("Error reading app JSON from marathon: " ++ err)), g1)
  | (HttpResult.response StatusCode appBody, g1) =>
    if StatusCode = 200 then ((appBody, none), g1) else (([], none), g1)

/-- The method `Agents.getAgents` (lines 397-428): the value of `agents` after the
call and the error. -/
def getAgents (config : Config) (w : World) (d : Decoders) (agents : Agents) (g : Globals) :
    (Agents × Option String) × Globals :=
  match HttpGet config w (config.MesosHost ++ mesosAgentsPath) g with
  | (HttpResult.failure err, g1) =>
    ((agents, some ("Error reading agents JSON from mesos: " ++ err)), g1)
  | (HttpResult.response StatusCode agentsBody, g1) =>
    if StatusCode = 200 then
      match d.unmarshalAgents agentsBody agents with
      | (agents1, some err) =>
        ((agents1, some ("Error unmarshalling JSON from mesos: " ++ err)), g1)
      | (agents1, none) => ((agents1, none), g1)
    else
      ((agents,
        some ("Error reading agents JSON from mesos - non 200 response: "
          ++ toString StatusCode)), g1)

/-- The loop `for _, app := range marathonApps` of lines 305-307; the entries are
visited in the order of the association list (Go leaves the order open). -/
def processEach (config : Config) (w : World) (apps : MarathonApps) (agents : Agents)
    (g : Globals) : Globals :=
  apps.foldl (fun g1 entry => processApp config w entry.2 agents g1) g

/-- One pass through the body of the `for` loop of `processApps` (lines 275-314),
up to the sleep.  The error returned by `Parse` on line 287 is discarded, as in
the source. -/
def processAppsCycle (config : Config) (w : World) (d : Decoders) (s : LoopState) :
    LoopState :=
  match MarathonApps.Get config w s.globals with
  | ((appData, err), g1) =>
    let g2 : Globals :=
      match err with
      | some _ => { g1 with appsUpdatedErrorCount := g1.appsUpdatedErrorCount + 1 }
      | none => g1
    let marathonApps := (MarathonApps.Parse d.unmarshalApps s.marathonApps appData).1
    if marathonApps.length = 0 then
      { globals := g2, marathonApps := marathonApps, agents := s.agents }
    else
      match getAgents config w d s.agents g2 with
      | ((agents1, some _), g3) =>
        { globals := g3, marathonApps := marathonApps, agents := agents1 }
      | ((agents1, none), g3) =>
        if agents1.getAgentCount = 0 then
          { globals := g3, marathonApps := marathonApps, agents := agents1 }
        else
          { globals := processEach config w marathonApps agents1 g3,
            marathonApps := marathonApps, agents := agents1 }

/-! ## Vocabulary of the statements -/

/-- The agent's attribute map contains the key `k` with the string value `v`. -/
def hasAttribute (n : Agent) (k : String) (v : String) : Prop :=
  n.Attributes.lookup k = some (JsonValue.str v)

instance hasAttributeDecidable (n : Agent) (k : String) (v : String) :
    Decidable (hasAttribute n k v) :=
  match h : n.Attributes.lookup k with
  | none => isFalse (by unfold hasAttribute; rw [h]; intro e; cases e)
  | some JsonValue.null => isFalse (by unfold hasAttribute; rw [h]; intro e; cases e)
  | some (JsonValue.bool _) => isFalse (by unfold hasAttribute; rw [h]; intro e; cases e)
  | some (JsonValue.number _) => isFalse (by unfold hasAttribute; rw [h]; intro e; cases e)
  | some (JsonValue.array _) => isFalse (by unfold hasAttribute; rw [h]; intro e; cases e)
  | some (JsonValue.object _) => isFalse (by unfold hasAttribute; rw [h]; intro e; cases e)
  | some (JsonValue.str t) =>
    if ht : t = v then isTrue (by unfold hasAttribute; rw [h, ht])
    else isFalse (by unfold hasAttribute; rw [h]; intro e; cases e; exact ht rfl)

/-- The label value of an attribute rule: the pairs `name|value`, separated by commas. -/
def attributesLabel (pairs : List (String × String)) : String :=
  ",".intercalate (pairs.map (fun p => p.1 ++ "|" ++ p.2))

/-- The requests of a trace that are PUT requests. -/
def putRequests (sent : List Request) : List Request :=
  sent.filter (fun r => r.method = "PUT")

/-- The GET request `getCurrentInstanceCount` hands to `client.Do` for `service`. -/
def getRequest (config : Config) (service : String) : Request :=
  { method := "GET", url := appUrl config service, body := none,
    authorization := if config.Authorization ≠ "" then some config.Authorization else none }

/-- The PUT request `updateInstanceCount` hands to `client.Do` for `service` and
`count`, when it sends one. -/
def putRequest (config : Config) (service : String) (count : Int) : Request :=
  { method := "PUT", url := appUrl config service, body := some (instanceJSON count),
    authorization := if config.Authorization ≠ "" then some config.Authorization else none }

/-! ## Example data -/

def exampleConfig : Config :=
  { MesosHost := "http://mesos:5050", MarathonHost := "http://marathon:8080",
    ServerPort := 8889, UpdateFrequency := 300000000000, DryRun := false,
    Debug := false, SkipTls := true, Authorization := "" }

def exampleDryRunConfig : Config := { exampleConfig with DryRun := true }

def exampleAgent (id : String) (attrs : List (String × JsonValue)) (active : Bool) : Agent :=
  { ID := id, Hostname := id ++ ".example", Attributes := attrs, Active := active,
    Version := "1.4.0" }

/-- One active public agent, one inactive private agent. -/
def twoAgents : Agents :=
  { Agents := [exampleAgent "s1" [("tier", JsonValue.str "public")] true,
               exampleAgent "s2" [("tier", JsonValue.str "private")] false] }

/-- Agents whose attributes differ in case, are missing, or are not strings. -/
def mixedAgents : Agents :=
  { Agents := [exampleAgent "s1" [("tier", JsonValue.str "public")] true,
               exampleAgent "s2" [("tier", JsonValue.str "Public")] true,
               exampleAgent "s3" [] true,
               exampleAgent "s4" [("rack", JsonValue.number 1), ("ssd", JsonValue.bool true)] true] }

/-- A single agent that is both public and in zone `a`. -/
def oneAgent : Agents :=
  { Agents := [exampleAgent "s1" [("tier", JsonValue.str "public"), ("zone", JsonValue.str "a")] true] }

def allApp : MarathonApp := { Attributes := "", ID := "/web", Typ := "all" }

def privateApp : MarathonApp := { Attributes := "tier|private", ID := "/cache", Typ := "attr" }

def gpuApp : MarathonApp := { Attributes := "gpu|yes", ID := "/train", Typ := "attr" }

def startGlobals : Globals := { appsUpdatedCount := 4, appsUpdatedErrorCount := 2, sent := [] }

/-- A scheduler reporting 3 instances for every application and answering every
PUT with `putStatus`. -/
def exampleWorld (putStatus : Int) : World :=
  { http := fun r => if r.method = "GET" then HttpResult.response 200 []
                     else HttpResult.response putStatus [],
    unmarshalInstances := fun _ => Except.ok 3 }

def exampleListing : List AppRecord :=
  [{ ID := "/web", Instances := 2, Labels := [("daemonset", "all")] },
   { ID := "/db", Instances := 1, Labels := [("owner", "ops")] },
   { ID := "/cache", Instances := 3, Labels := [("daemonset", "tier|private")] }]

/-- The registry a previous cycle left behind: the single application "/old". -/
def staleRegistry : MarathonApps :=
  [("/old", { Attributes := "", ID := "/old", Typ := "all" })]

def staleState : LoopState :=
  { globals := startGlobals, marathonApps := staleRegistry, agents := { Agents := [] } }

/-- The decoders of the examples: like `json.Unmarshal`, they reject an empty
input; a body starting with the byte 123, an opening brace, decodes to
`exampleListing`, or to `twoAgents`. -/
def exampleDecoders : Decoders :=
  { unmarshalApps := fun data =>
      match data with
      | [] => Except.error "unexpected end of JSON input"
      | b :: _ =>
        if b = 123 then Except.ok exampleListing
        else Except.error "invalid character looking for beginning of value",
    unmarshalAgents := fun data old =>
      match data with
      | [] => (old, some "unexpected end of JSON input")
      | _ :: _ => (twoAgents, none) }

/-- A world in which the listing call `GET /v2/apps` has the outcome `listing`,
Mesos answers with a decodable inventory, every application reports 3 instances
and every PUT is accepted. -/
def listingWorld (listing : HttpResult) : World :=
  { http := fun r =>
      if r.url = "http://marathon:8080/v2/apps" then listing
      else HttpResult.response 200 [123],
    unmarshalInstances := fun _ => Except.ok 3 }

/-! # Theorems -/

/-! ## Counting by one attribute -/

theorem ifaceEqString_mapIndex (m : List (String × JsonValue)) (k v : String) :
    ifaceEqString (mapIndex m k) v = true ↔ m.lookup k = some (JsonValue.str v) := by
  unfold mapIndex
  cases h : m.lookup k with
  | none => simp [ifaceEqString]
  | some x => cases x <;> simp [ifaceEqString]

theorem foldl_count_eq {α : Type} (p : α → Bool) (l : List α) (init : Int) :
    l.foldl (fun c v => if p v then c + 1 else c) init = init + (l.countP p : Int) := by
  induction l generalizing init with
  | nil => simp
  | cons x xs ih =>
    simp only [List.foldl_cons, ih, List.countP_cons]
    by_cases hx : p x = true
    · simp [hx]; ring
    · simp [hx]

theorem getAgentCountByAttribute_eq_countP (a : Agents) (k v : String) :
    a.getAgentCountByAttribute k v
      = (a.Agents.countP (fun n => ifaceEqString (mapIndex n.Attributes k) v) : Int) := by
  unfold Agents.getAgentCountByAttribute
  have h := foldl_count_eq (fun n : Agent => ifaceEqString (mapIndex n.Attributes k) v) a.Agents 0
  simpa using h

theorem getAgentCountByAttribute_nonneg (a : Agents) (k v : String) :
    0 ≤ a.getAgentCountByAttribute k v := by
  rw [getAgentCountByAttribute_eq_countP]; exact Int.natCast_nonneg _

theorem getAgentCountByAttribute_skip (pre post : List Agent) (n : Agent) (k v : String)
    (h : ¬ hasAttribute n k v) :
    Agents.getAgentCountByAttribute { Agents := pre ++ n :: post } k v
      = Agents.getAgentCountByAttribute { Agents := pre ++ post } k v := by
  have hn : ifaceEqString (mapIndex n.Attributes k) v = false := by
    cases hb : ifaceEqString (mapIndex n.Attributes k) v with
    | false => rfl
    | true => exact absurd ((ifaceEqString_mapIndex _ _ _).1 hb) h
  simp [getAgentCountByAttribute_eq_countP, List.countP_append, List.countP_cons, hn]

theorem getAgentCountByAttribute_eq_length_filter (a : Agents) (k v : String) :
    a.getAgentCountByAttribute k v
      = ((a.Agents.filter (fun n => decide (hasAttribute n k v))).length : Int) := by
  have hfun : (fun n : Agent => ifaceEqString (mapIndex n.Attributes k) v)
      = (fun n : Agent => decide (hasAttribute n k v)) := by
    funext n
    rw [Bool.eq_iff_iff, ifaceEqString_mapIndex, decide_eq_true_iff]
    rfl
  rw [getAgentCountByAttribute_eq_countP, hfun, List.countP_eq_length_filter]

/-- C5: `getAgentCountByAttribute` returns exactly the number of agents whose
attribute map holds the key with that very string as value (string equality is
exact, hence case-sensitive); an agent whose map lacks the key is never counted,
whatever the value asked for, the empty string included; and when no agent
matches the result is the number 0. -/
theorem getAgentCountByAttribute_counts_exact_matches (a : Agents) (k v : String) :
    a.getAgentCountByAttribute k v
        = ((a.Agents.filter (fun n => decide (hasAttribute n k v))).length : Int)
      ∧ (∀ (pre post : List Agent) (n : Agent), n.Attributes.lookup k = none →
          Agents.getAgentCountByAttribute { Agents := pre ++ n :: post } k v
            = Agents.getAgentCountByAttribute { Agents := pre ++ post } k v)
      ∧ ((∀ n ∈ a.Agents, ¬ hasAttribute n k v) → a.getAgentCountByAttribute k v = 0) := by
  have hcount := getAgentCountByAttribute_eq_length_filter a k v
  refine ⟨hcount, ?_, ?_⟩
  · intro pre post n hn
    apply getAgentCountByAttribute_skip
    unfold hasAttribute
    rw [hn]
    intro e
    cases e
  · intro hall
    rw [hcount]
    have : a.Agents.filter (fun n => decide (hasAttribute n k v)) = [] := by
      rw [List.filter_eq_nil_iff]
      intro n hn
      simpa using hall n hn
    rw [this]
    rfl

/-- Witness of C5 on `mixedAgents`: "public" matches one agent (not the one
tagged "Public"), and the empty string matches nobody, not even the agent that
has no `tier` attribute. -/
theorem getAgentCountByAttribute_counts_exact_matches_witness :
    mixedAgents.getAgentCountByAttribute "tier" "public" = 1
      ∧ mixedAgents.getAgentCountByAttribute "tier" "" = 0 :=
  ⟨(getAgentCountByAttribute_counts_exact_matches mixedAgents "tier" "public").1.trans
      (by decide),
    (getAgentCountByAttribute_counts_exact_matches mixedAgents "tier" "").2.2 (by decide)⟩

/-! ## The target of an application of type "all" -/

/-- C2, as stated, fails: on `twoAgents` (one active agent, one inactive) the
target of an application of type "all" is 2, while one agent is active. -/
theorem agentCountFor_all_counts_inactive :
    allApp.Typ = "all"
      ∧ agentCountFor allApp twoAgents = 2
      ∧ twoAgents.Agents.countP (fun n => n.Active) = 1
      ∧ agentCountFor allApp twoAgents ≠ (twoAgents.Agents.countP (fun n => n.Active) : Int) := by
  decide

/-- C2, amended: for an application of type "all" the target is the total number
of agents of the inventory, whatever their `Active` flags; it equals the number
of active agents exactly when every agent of the inventory is active. -/
theorem agentCountFor_all_eq_length (app : MarathonApp) (agents : Agents)
    (hall : app.Typ = "all") :
    agentCountFor app agents = (agents.Agents.length : Int)
      ∧ (agentCountFor app agents = (agents.Agents.countP (fun n => n.Active) : Int)
          ↔ ∀ n ∈ agents.Agents, n.Active = true) := by
  have h : agentCountFor app agents = (agents.Agents.length : Int) := by
    unfold agentCountFor
    rw [if_pos (by rw [hall]; rfl)]
    rfl
  refine ⟨h, ?_⟩
  rw [h]
  constructor
  · intro heq
    have heq2 : agents.Agents.countP (fun n => n.Active) = agents.Agents.length := by
      exact_mod_cast heq.symm
    exact List.countP_eq_length.1 heq2
  · intro hact
    have : agents.Agents.countP (fun n => n.Active) = agents.Agents.length :=
      List.countP_eq_length.2 hact
    rw [this]

/-- Witness of the amended C2 on `twoAgents`. -/
theorem agentCountFor_all_eq_length_witness :
    allApp.Typ = "all" ∧ agentCountFor allApp twoAgents = 2 :=
  ⟨by decide, (agentCountFor_all_eq_length allApp twoAgents (by decide)).1⟩

/-! ## Attribute values that are not strings -/

/-- C6, as stated, fails: the agent `s4` of `mixedAgents` has `rack` = 1 (a
number) and `ssd` = true (a boolean), and is counted neither for the string "1"
nor for the string "true". -/
theorem getAgentCountByAttribute_ignores_non_strings :
    mixedAgents.getAgentCountByAttribute "rack" "1" = 0
      ∧ mixedAgents.getAgentCountByAttribute "ssd" "true" = 0 := by
  decide

/-- C6, amended: an agent whose attribute `k` holds a value that is not a string
(a number, a boolean, null, an array or an object) is counted for no string `s`:
the count is the same with and without that agent. -/
theorem getAgentCountByAttribute_non_string_not_counted (pre post : List Agent) (n : Agent)
    (k s : String) (x : JsonValue) (hx : n.Attributes.lookup k = some x)
    (hns : ∀ t : String, x ≠ JsonValue.str t) :
    Agents.getAgentCountByAttribute { Agents := pre ++ n :: post } k s
      = Agents.getAgentCountByAttribute { Agents := pre ++ post } k s := by
  apply getAgentCountByAttribute_skip
  unfold hasAttribute
  rw [hx]
  intro e
  exact hns s (Option.some.inj e)

/-- Witness of the amended C6: an agent whose `rack` is the number 1, between two
others. -/
theorem getAgentCountByAttribute_non_string_not_counted_witness :
    Agents.getAgentCountByAttribute
        { Agents := twoAgents.Agents
            ++ exampleAgent "s4" [("rack", JsonValue.number 1)] true :: oneAgent.Agents }
        "rack" "1"
      = Agents.getAgentCountByAttribute { Agents := twoAgents.Agents ++ oneAgent.Agents }
        "rack" "1" :=
  getAgentCountByAttribute_non_string_not_counted twoAgents.Agents oneAgent.Agents
    (exampleAgent "s4" [("rack", JsonValue.number 1)] true) "rack" "1" (JsonValue.number 1)
    rfl (by intro t e; cases e)

/-! ## Splitting a label value -/

theorem splitChars_ne_nil (sep : Char) (l : List Char) : splitChars sep l ≠ [] := by
  cases l with
  | nil => simp [splitChars]
  | cons c cs =>
    unfold splitChars
    split
    · simp
    · split <;> simp

theorem splitChars_append_sep (sep : Char) (p rest : List Char) (hp : sep ∉ p) :
    splitChars sep (p ++ sep :: rest) = p :: splitChars sep rest := by
  induction p with
  | nil => simp [splitChars]
  | cons c p ih =>
    have hc : c ≠ sep := fun e => hp (by simp [e])
    have hp2 : sep ∉ p := fun e => hp (by simp [e])
    rw [List.cons_append, splitChars, if_neg hc, ih hp2]

theorem splitChars_of_not_mem (sep : Char) (p : List Char) (hp : sep ∉ p) :
    splitChars sep p = [p] := by
  induction p with
  | nil => simp [splitChars]
  | cons c p ih =>
    have hc : c ≠ sep := fun e => hp (by simp [e])
    have hp2 : sep ∉ p := fun e => hp (by simp [e])
    rw [splitChars, if_neg hc, ih hp2]

theorem splitChars_length (sep : Char) (l : List Char) :
    (splitChars sep l).length = l.count sep + 1 := by
  induction l with
  | nil => simp [splitChars]
  | cons c cs ih =>
    by_cases hc : c = sep
    · rw [splitChars, if_pos hc, List.length_cons, ih, hc, List.count_cons_self]
    · rw [splitChars, if_neg hc, List.count_cons_of_ne (Ne.symm hc)]
      cases hs : splitChars sep cs with
      | nil => exact absurd hs (splitChars_ne_nil sep cs)
      | cons q qs =>
        rw [hs] at ih
        simpa using ih

theorem intercalate_go_data (sep : String) (l : List String) (acc : String) :
    (String.intercalate.go acc sep l).data
      = acc.data ++ l.flatMap (fun x => sep.data ++ x.data) := by
  induction l generalizing acc with
  | nil => simp [String.intercalate.go]
  | cons x xs ih =>
    simp [String.intercalate.go, ih, String.data_append, List.append_assoc]

theorem splitChars_joined (sep : Char) (l : List String) (p : List Char) (hp : sep ∉ p)
    (hl : ∀ x ∈ l, sep ∉ x.data) :
    splitChars sep (p ++ l.flatMap (fun x => [sep] ++ x.data)) = p :: l.map String.data := by
  induction l generalizing p with
  | nil => simpa using splitChars_of_not_mem sep p hp
  | cons x xs ih =>
    have hx : sep ∉ x.data := hl x (by simp)
    have hxs : ∀ y ∈ xs, sep ∉ y.data := fun y hy => hl y (by simp [hy])
    rw [List.flatMap_cons, List.append_assoc, List.singleton_append,
      splitChars_append_sep sep p _ hp, ih x.data hx hxs]
    rfl

/-- Splitting the comma-joined text of a non-empty list of comma-free pieces
gives the pieces back. -/
theorem stringsSplit_intercalate (pieces : List String) (hne : pieces ≠ [])
    (hp : ∀ x ∈ pieces, ',' ∉ x.data) :
    stringsSplit (",".intercalate pieces) ',' = pieces := by
  cases pieces with
  | nil => exact absurd rfl hne
  | cons x xs =>
    have hx : ',' ∉ x.data := hp x (by simp)
    have hxs : ∀ y ∈ xs, ',' ∉ y.data := fun y hy => hp y (by simp [hy])
    unfold stringsSplit
    rw [String.intercalate, intercalate_go_data]
    have hd : (",".data : List Char) = [','] := rfl
    rw [hd, splitChars_joined ',' xs x.data hx hxs]
    simp [List.map_map, Function.comp_def]

/-! ## Counting by a list of attribute pairs -/

theorem stringsSplit_pair (name value : String) (hn : '|' ∉ name.data)
    (hv : '|' ∉ value.data) :
    stringsSplit (name ++ "|" ++ value) '|' = [name, value] := by
  unfold stringsSplit
  have hd : (name ++ "|" ++ value).data = name.data ++ '|' :: value.data := by
    simp [String.data_append]
  rw [hd, splitChars_append_sep '|' _ _ hn, splitChars_of_not_mem '|' _ hv]
  rfl

theorem attributePairStep_pair (a : Agents) (c : Int) (name value : String)
    (hn : '|' ∉ name.data) (hv : '|' ∉ value.data) :
    attributePairStep a c (name ++ "|" ++ value) = c + a.getAgentCountByAttribute name value := by
  unfold attributePairStep
  rw [stringsSplit_pair name value hn hv]

theorem attributePairStep_malformed (a : Agents) (c : Int) (attr : String)
    (h : (stringsSplit attr '|').length ≠ 2) : attributePairStep a c attr = c := by
  unfold attributePairStep
  split
  · rename_i heq
    rw [heq] at h
    exact absurd rfl h
  · rfl

theorem attributePairStep_add (a : Agents) (c : Int) (attr : String) :
    attributePairStep a c attr = c + attributePairStep a 0 attr := by
  unfold attributePairStep
  split <;> simp

theorem foldl_attributePairStep (a : Agents) (pieces : List String) (c : Int) :
    pieces.foldl (attributePairStep a) c
      = c + (pieces.map (attributePairStep a 0)).sum := by
  induction pieces generalizing c with
  | nil => simp
  | cons x xs ih =>
    rw [List.foldl_cons, ih, attributePairStep_add a c x, List.map_cons, List.sum_cons]
    ring

/-- On a label made of comma-free pieces, the result is the sum of what each
piece contributes on its own. -/
theorem getAgentCountByAttributes_pieces (a : Agents) (pieces : List String)
    (hne : pieces ≠ []) (hp : ∀ x ∈ pieces, ',' ∉ x.data) :
    a.getAgentCountByAttributes (",".intercalate pieces)
      = (pieces.map (attributePairStep a 0)).sum := by
  unfold Agents.getAgentCountByAttributes
  rw [stringsSplit_intercalate pieces hne hp, foldl_attributePairStep]
  simp

theorem sum_indicator_eq_countP {β : Type} (q : β → Bool) (ys : List β) :
    (ys.map (fun y => if q y then (1 : Int) else 0)).sum = (ys.countP q : Int) := by
  induction ys with
  | nil => simp
  | cons y ys ih =>
    rw [List.map_cons, List.sum_cons, ih, List.countP_cons]
    by_cases hy : q y = true
    · simp [hy]; ring
    · simp [hy]

theorem sum_countP_swap {α β : Type} (r : α → β → Bool) (xs : List α) (ys : List β) :
    (ys.map (fun y => (xs.countP (fun x => r x y) : Int))).sum
      = (xs.map (fun x => (ys.countP (fun y => r x y) : Int))).sum := by
  induction xs with
  | nil => simp
  | cons x xs ih =>
    have h1 : (fun y => ((x :: xs).countP (fun x => r x y) : Int))
        = (fun y => (xs.countP (fun x => r x y) : Int) + (if r x y then (1 : Int) else 0)) := by
      funext y
      rw [List.countP_cons]
      by_cases hy : r x y = true <;> simp [hy]
    rw [h1, List.sum_map_add, ih, sum_indicator_eq_countP, List.map_cons, List.sum_cons]
    ring

/-- C3: for a label value made of `n >= 1` pairs `name|value` (names and values
free of both separators), `getAgentCountByAttributes` returns the sum over the
pairs of `getAgentCountByAttribute`; equivalently every agent is counted once for
each pair it matches, so an agent matching two pairs is counted twice: nothing is
deduplicated. -/
theorem getAgentCountByAttributes_sum_of_pairs (a : Agents) (pairs : List (String × String))
    (hne : pairs ≠ [])
    (hwf : ∀ p ∈ pairs, ',' ∉ p.1.data ∧ '|' ∉ p.1.data ∧ ',' ∉ p.2.data ∧ '|' ∉ p.2.data) :
    a.getAgentCountByAttributes (attributesLabel pairs)
        = (pairs.map (fun p => a.getAgentCountByAttribute p.1 p.2)).sum
      ∧ a.getAgentCountByAttributes (attributesLabel pairs)
        = (a.Agents.map (fun n =>
            ((pairs.filter (fun p => decide (hasAttribute n p.1 p.2))).length : Int))).sum := by
  have hsum : a.getAgentCountByAttributes (attributesLabel pairs)
      = (pairs.map (fun p => a.getAgentCountByAttribute p.1 p.2)).sum := by
    unfold attributesLabel
    rw [getAgentCountByAttributes_pieces a _ (by simpa using hne)]
    · rw [List.map_map]
      congr 1
      apply List.map_congr_left
      intro p hp
      obtain ⟨_, h2, _, h4⟩ := hwf p hp
      simp only [Function.comp_apply]
      rw [attributePairStep_pair a 0 p.1 p.2 h2 h4]
      simp
    · intro x hx
      rw [List.mem_map] at hx
      obtain ⟨p, hp, rfl⟩ := hx
      obtain ⟨h1, _, h3, _⟩ := hwf p hp
      simp [String.data_append, h1, h3]
  refine ⟨hsum, ?_⟩
  rw [hsum]
  have hfun : (fun p : String × String => a.getAgentCountByAttribute p.1 p.2)
      = (fun p : String × String =>
          (a.Agents.countP (fun n => decide (hasAttribute n p.1 p.2)) : Int)) := by
    funext p
    rw [getAgentCountByAttribute_eq_length_filter, List.countP_eq_length_filter]
  rw [hfun, sum_countP_swap (fun n (p : String × String) => decide (hasAttribute n p.1 p.2))]
  simp only [List.countP_eq_length_filter]

/-- Witness of C3 on `oneAgent`, whose single agent is public and in zone `a`:
the label "tier|public,zone|a" gives 2, more than the number of agents. -/
theorem getAgentCountByAttributes_sum_of_pairs_witness :
    attributesLabel [("tier", "public"), ("zone", "a")] = "tier|public,zone|a"
      ∧ oneAgent.getAgentCountByAttributes (attributesLabel [("tier", "public"), ("zone", "a")]) = 2
      ∧ oneAgent.Agents.length = 1 :=
  ⟨by decide,
    (getAgentCountByAttributes_sum_of_pairs oneAgent [("tier", "public"), ("zone", "a")]
      (by decide) (by decide)).1.trans (by decide),
    by decide⟩

/-- C4: a comma-separated piece that does not split on '|' into exactly two parts
(its number of parts is its number of '|' plus one, so this is: no separator, or
two or more) contributes 0 and does not stop the evaluation: put anywhere in a
non-empty list of pieces it leaves the result unchanged, and a label consisting
only of such pieces yields 0. -/
theorem getAgentCountByAttributes_malformed_piece (a : Agents) (xs ys : List String)
    (bad : String) (hp : ∀ x ∈ xs ++ ys, ',' ∉ x.data) (hbc : ',' ∉ bad.data)
    (hbad : (stringsSplit bad '|').length ≠ 2) :
    (stringsSplit bad '|').length = bad.data.count '|' + 1
      ∧ (∀ c : Int, attributePairStep a c bad = c)
      ∧ (xs ++ ys ≠ [] →
          a.getAgentCountByAttributes (",".intercalate (xs ++ bad :: ys))
            = a.getAgentCountByAttributes (",".intercalate (xs ++ ys)))
      ∧ ((∀ x ∈ xs ++ ys, (stringsSplit x '|').length ≠ 2) →
          a.getAgentCountByAttributes (",".intercalate (xs ++ bad :: ys)) = 0) := by
  have hall : ∀ x ∈ xs ++ bad :: ys, ',' ∉ x.data := by
    intro x hx
    rw [List.mem_append, List.mem_cons] at hx
    rcases hx with h | h | h
    · exact hp x (List.mem_append_left _ h)
    · rw [h]; exact hbc
    · exact hp x (List.mem_append_right _ h)
  have hwith : a.getAgentCountByAttributes (",".intercalate (xs ++ bad :: ys))
      = ((xs ++ bad :: ys).map (attributePairStep a 0)).sum :=
    getAgentCountByAttributes_pieces a _ (by simp) hall
  have hzero : attributePairStep a 0 bad = 0 := attributePairStep_malformed a 0 bad hbad
  refine ⟨?_, fun c => attributePairStep_malformed a c bad hbad, ?_, ?_⟩
  · unfold stringsSplit
    rw [List.length_map, splitChars_length]
  · intro hne
    rw [hwith, getAgentCountByAttributes_pieces a _ hne hp]
    simp [hzero]
  · intro hbads
    rw [hwith]
    apply List.sum_eq_zero
    intro z hz
    rw [List.mem_map] at hz
    obtain ⟨x, hx, rfl⟩ := hz
    rw [List.mem_append, List.mem_cons] at hx
    rcases hx with h | h | h
    · exact attributePairStep_malformed a 0 x (hbads x (List.mem_append_left _ h))
    · rw [h]; exact hzero
    · exact attributePairStep_malformed a 0 x (hbads x (List.mem_append_right _ h))

/-- Witness of C4 on `twoAgents`: the piece "zone|a|b" between "tier|public" and
"tier|private" changes nothing (the result is 2 with and without it), and the
label ",zone|a|b", made of the empty piece and "zone|a|b", yields 0. -/
theorem getAgentCountByAttributes_malformed_piece_witness :
    ",".intercalate (["tier|public"] ++ "zone|a|b" :: ["tier|private"])
        = "tier|public,zone|a|b,tier|private"
      ∧ twoAgents.getAgentCountByAttributes
          (",".intercalate (["tier|public"] ++ "zone|a|b" :: ["tier|private"])) = 2
      ∧ twoAgents.getAgentCountByAttributes (",".intercalate ([""] ++ "zone|a|b" :: [])) = 0 :=
  ⟨by decide,
    ((getAgentCountByAttributes_malformed_piece twoAgents ["tier|public"] ["tier|private"]
      "zone|a|b" (by decide) (by decide) (by decide)).2.2.1 (by decide)).trans (by decide),
    (getAgentCountByAttributes_malformed_piece twoAgents [""] [] "zone|a|b"
      (by decide) (by decide) (by decide)).2.2.2 (by decide)⟩

/-! ## Reconciling one application -/

theorem attributePairStep_zero_nonneg (a : Agents) (attr : String) :
    0 ≤ attributePairStep a 0 attr := by
  unfold attributePairStep
  split
  · simpa using getAgentCountByAttribute_nonneg a _ _
  · exact le_refl 0

/-- The target computed by `processApp` is never negative. -/
theorem agentCountFor_nonneg (app : MarathonApp) (agents : Agents) :
    0 ≤ agentCountFor app agents := by
  unfold agentCountFor
  split
  · exact Int.natCast_nonneg _
  · unfold Agents.getAgentCountByAttributes
    rw [foldl_attributePairStep, zero_add]
    apply List.sum_nonneg
    intro z hz
    rw [List.mem_map] at hz
    obtain ⟨x, _, rfl⟩ := hz
    exact attributePairStep_zero_nonneg agents x

theorem HttpGet_eq (config : Config) (w : World) (service : String) (g : Globals) :
    HttpGet config w (appUrl config service) g
      = (w.http (getRequest config service),
          { g with sent := g.sent ++ [getRequest config service] }) := rfl

theorem HttpPut_eq (config : Config) (w : World) (service : String) (count : Int)
    (g : Globals) :
    HttpPut config w (appUrl config service) (instanceJSON count) g
      = (w.http (putRequest config service count),
          { g with sent := g.sent ++ [putRequest config service count] }) := rfl

theorem getCurrentInstanceCount_state (config : Config) (w : World) (service : String)
    (g : Globals) :
    (getCurrentInstanceCount config w service g).2
      = { g with sent := g.sent ++ [getRequest config service] } := by
  unfold getCurrentInstanceCount
  rw [HttpGet_eq]
  cases w.http (getRequest config service) with
  | failure err => rfl
  | response code body =>
    dsimp only
    split
    · cases w.unmarshalInstances body <;> rfl
    · rfl

theorem updateInstanceCount_dryRun (config : Config) (w : World) (count : Int)
    (service : String) (g : Globals) (hdry : config.DryRun = true) :
    updateInstanceCount config w count service g = (none, g) := by
  unfold updateInstanceCount
  rw [if_pos hdry]

theorem updateInstanceCount_conflict (config : Config) (w : World) (count : Int)
    (service : String) (g : Globals) (body : List UInt8) (hdry : config.DryRun = false)
    (h409 : w.http (putRequest config service count) = HttpResult.response 409 body) :
    updateInstanceCount config w count service g
      = (some "409 status code (conflict) returned: 409",
          { g with sent := g.sent ++ [putRequest config service count] }) := by
  unfold updateInstanceCount
  rw [HttpPut_eq, h409, hdry]
  rfl

theorem processApp_of_get (config : Config) (w : World) (app : MarathonApp) (agents : Agents)
    (g g1 : Globals) (c : Int)
    (hget : getCurrentInstanceCount config w app.ID g = ((c, none), g1)) :
    g1 = { g with sent := g.sent ++ [getRequest config app.ID] }
      ∧ processApp config w app agents g
        = if agentCountFor app agents > 0 ∧ c ≠ agentCountFor app agents then
            match updateInstanceCount config w (agentCountFor app agents) app.ID g1 with
            | (some _, g2) => { g2 with appsUpdatedErrorCount := g2.appsUpdatedErrorCount + 1 }
            | (none, g2) => g2
          else g1 := by
  constructor
  · have h := getCurrentInstanceCount_state config w app.ID g
    rw [hget] at h
    exact h
  · unfold processApp
    rw [hget]

theorem updateInstanceCount_sent (config : Config) (w : World) (count : Int)
    (service : String) (g : Globals) (hdry : config.DryRun = false) :
    (updateInstanceCount config w count service g).2.sent
      = g.sent ++ [putRequest config service count] := by
  unfold updateInstanceCount
  rw [HttpPut_eq, hdry]
  cases w.http (putRequest config service count) with
  | failure err => rfl
  | response code body =>
    simp only [Bool.false_eq_true, if_false]
    split
    · rfl
    · split <;> rfl

theorem countError_sent (r : Option String × Globals) :
    (match r with
      | (some _, g2) => { g2 with appsUpdatedErrorCount := g2.appsUpdatedErrorCount + 1 }
      | (none, g2) => g2).sent = r.2.sent := by
  rcases r with ⟨_ | _, g2⟩ <;> rfl

/-- C1, as stated, fails: with dry-run off, `gpuApp` on `twoAgents` has target 0,
the scheduler reports 3 instances, so the target differs from the current count,
and yet `processApp` sends no PUT. -/
theorem processApp_zero_target_sends_no_update :
    exampleConfig.DryRun = false
      ∧ agentCountFor gpuApp twoAgents = 0
      ∧ (getCurrentInstanceCount exampleConfig (exampleWorld 200) gpuApp.ID startGlobals).1
          = (3, none)
      ∧ agentCountFor gpuApp twoAgents ≠ 3
      ∧ putRequests (processApp exampleConfig (exampleWorld 200) gpuApp twoAgents startGlobals).sent
          = [] := by
  decide

/-- C1, amended: with dry-run off and a current count `c` returned by a
successful `getCurrentInstanceCount`, `processApp` sends the PUT if and only if
the target `t` is positive and differs from `c`; the request it then sends is the
one whose body is `instanceJSON t`, carrying exactly `t`. -/
theorem processApp_updates_iff_positive_and_differs (config : Config) (w : World)
    (app : MarathonApp) (agents : Agents) (g g1 : Globals) (c : Int)
    (hdry : config.DryRun = false)
    (hget : getCurrentInstanceCount config w app.ID g = ((c, none), g1)) :
    (processApp config w app agents g).sent
        = g.sent ++ getRequest config app.ID ::
            (if 0 < agentCountFor app agents ∧ agentCountFor app agents ≠ c then
              [putRequest config app.ID (agentCountFor app agents)] else [])
      ∧ ((∃ r ∈ (processApp config w app agents g).sent.drop g.sent.length, r.method = "PUT")
          ↔ (0 < agentCountFor app agents ∧ agentCountFor app agents ≠ c))
      ∧ (∀ r ∈ (processApp config w app agents g).sent.drop g.sent.length, r.method = "PUT" →
          r.body = some (instanceJSON (agentCountFor app agents))) := by
  obtain ⟨hg1, hproc⟩ := processApp_of_get config w app agents g g1 c hget
  have hsent : (processApp config w app agents g).sent
      = g.sent ++ getRequest config app.ID ::
          (if 0 < agentCountFor app agents ∧ agentCountFor app agents ≠ c then
            [putRequest config app.ID (agentCountFor app agents)] else []) := by
    rw [hproc]
    by_cases hc : 0 < agentCountFor app agents ∧ agentCountFor app agents ≠ c
    · have hc2 : agentCountFor app agents > 0 ∧ c ≠ agentCountFor app agents :=
        ⟨hc.1, fun e => hc.2 e.symm⟩
      rw [if_pos hc2, if_pos hc, countError_sent, updateInstanceCount_sent _ _ _ _ _ hdry, hg1]
      simp
    · have hc2 : ¬ (agentCountFor app agents > 0 ∧ c ≠ agentCountFor app agents) :=
        fun h => hc ⟨h.1, fun e => h.2 e.symm⟩
      rw [if_neg hc2, if_neg hc, hg1]
  refine ⟨hsent, ?_, ?_⟩
  · rw [hsent, List.drop_left]
    by_cases hc : 0 < agentCountFor app agents ∧ agentCountFor app agents ≠ c
    · simp [hc, getRequest, putRequest]
    · simp [hc, getRequest]
  · rw [hsent, List.drop_left]
    intro r hr hput
    by_cases hc : 0 < agentCountFor app agents ∧ agentCountFor app agents ≠ c
    · rw [if_pos hc] at hr
      simp only [List.mem_cons, List.mem_singleton, List.not_mem_nil, or_false] at hr
      rcases hr with h | h
      · rw [h] at hput
        exact absurd hput (by simp [getRequest])
      · rw [h]; rfl
    · rw [if_neg hc] at hr
      simp only [List.mem_singleton] at hr
      rw [hr] at hput
      exact absurd hput (by simp [getRequest])

/-- Witness of the amended C1: `allApp` on `twoAgents` has target 2, the scheduler
reports 3, and the PUT carries `\x7b "instances": 2 \x7d`. -/
theorem processApp_updates_iff_positive_and_differs_witness :
    exampleConfig.DryRun = false
      ∧ (processApp exampleConfig (exampleWorld 200) allApp twoAgents startGlobals).sent
        = [getRequest exampleConfig "/web",
            { method := "PUT", url := "http://marathon:8080/v2/apps/web",
              body := some "\x7b \"instances\": 2 \x7d", authorization := none }] :=
  ⟨by decide,
    (processApp_updates_iff_positive_and_differs exampleConfig (exampleWorld 200) allApp
      twoAgents startGlobals
      { startGlobals with sent := startGlobals.sent ++ [getRequest exampleConfig allApp.ID] } 3
      (by decide) (by decide)).1.trans (by decide)⟩

/-- C7: whatever the application, the inventory and the current count `c`
returned by `getCurrentInstanceCount` (positive counts included), when the target
is 0 `processApp` only sends the GET: no update request is sent and both counters
keep their values. -/
theorem processApp_zero_target_never_scales (config : Config) (w : World) (app : MarathonApp)
    (agents : Agents) (g g1 : Globals) (c : Int)
    (hget : getCurrentInstanceCount config w app.ID g = ((c, none), g1))
    (hzero : agentCountFor app agents = 0) :
    processApp config w app agents g = { g with sent := g.sent ++ [getRequest config app.ID] }
      ∧ (processApp config w app agents g).appsUpdatedCount = g.appsUpdatedCount
      ∧ (processApp config w app agents g).appsUpdatedErrorCount = g.appsUpdatedErrorCount
      ∧ putRequests ((processApp config w app agents g).sent.drop g.sent.length) = [] := by
  obtain ⟨hg1, hproc⟩ := processApp_of_get config w app agents g g1 c hget
  have h : processApp config w app agents g
      = { g with sent := g.sent ++ [getRequest config app.ID] } := by
    rw [hproc, hzero, if_neg (by simp), hg1]
  rw [h]
  refine ⟨rfl, rfl, rfl, ?_⟩
  simp [putRequests, getRequest]

/-- Witness of C7: `gpuApp` has target 0 on `twoAgents` while 3 instances run. -/
theorem processApp_zero_target_never_scales_witness :
    agentCountFor gpuApp twoAgents = 0
      ∧ processApp exampleConfig (exampleWorld 200) gpuApp twoAgents startGlobals
        = { appsUpdatedCount := 4, appsUpdatedErrorCount := 2,
            sent := [getRequest exampleConfig "/train"] } :=
  ⟨by decide,
    (processApp_zero_target_never_scales exampleConfig (exampleWorld 200) gpuApp twoAgents
      startGlobals
      { startGlobals with sent := startGlobals.sent ++ [getRequest exampleConfig gpuApp.ID] } 3
      (by decide) (by decide)).1⟩

/-- C8: in dry-run mode `updateInstanceCount` returns no error and sends nothing,
and for every application, in particular one whose target differs from its
current count `c`, `processApp` only sends the GET: no PUT, and the success
counter and the error counter keep the values they had before. -/
theorem processApp_dryRun_changes_nothing (config : Config) (w : World) (app : MarathonApp)
    (agents : Agents) (g g1 : Globals) (c : Int) (hdry : config.DryRun = true)
    (hget : getCurrentInstanceCount config w app.ID g = ((c, none), g1)) :
    updateInstanceCount config w (agentCountFor app agents) app.ID g1 = (none, g1)
      ∧ processApp config w app agents g
        = { g with sent := g.sent ++ [getRequest config app.ID] }
      ∧ (processApp config w app agents g).appsUpdatedCount = g.appsUpdatedCount
      ∧ (processApp config w app agents g).appsUpdatedErrorCount = g.appsUpdatedErrorCount
      ∧ putRequests ((processApp config w app agents g).sent.drop g.sent.length) = [] := by
  obtain ⟨hg1, hproc⟩ := processApp_of_get config w app agents g g1 c hget
  have hupd := updateInstanceCount_dryRun config w (agentCountFor app agents) app.ID g1 hdry
  have h : processApp config w app agents g
      = { g with sent := g.sent ++ [getRequest config app.ID] } := by
    rw [hproc, hupd]
    split
    · exact hg1
    · exact hg1
  rw [h]
  refine ⟨hupd, rfl, rfl, rfl, ?_⟩
  simp [putRequests, getRequest]

/-- Witness of C8: in dry-run mode `allApp` (target 2, current count 3) leaves the
counters at 4 and 2 and sends the GET only. -/
theorem processApp_dryRun_changes_nothing_witness :
    exampleDryRunConfig.DryRun = true
      ∧ agentCountFor allApp twoAgents ≠ 3
      ∧ processApp exampleDryRunConfig (exampleWorld 200) allApp twoAgents startGlobals
        = { appsUpdatedCount := 4, appsUpdatedErrorCount := 2,
            sent := [getRequest exampleDryRunConfig "/web"] } :=
  ⟨by decide, by decide,
    (processApp_dryRun_changes_nothing exampleDryRunConfig (exampleWorld 200) allApp twoAgents
      startGlobals
      { startGlobals with
        sent := startGlobals.sent ++ [getRequest exampleDryRunConfig allApp.ID] } 3
      (by decide) (by decide)).2.1⟩

/-- C9: when the PUT is answered with status 409, `updateInstanceCount` returns
an error after that single PUT (no second request), and over the whole call of
`processApp` the error counter grows by exactly 1, the success counter is
unchanged, and `processApp` returns the resulting state. -/
theorem processApp_conflict_counts_one_error (config : Config) (w : World)
    (app : MarathonApp) (agents : Agents) (g g1 : Globals) (c : Int) (body : List UInt8)
    (hdry : config.DryRun = false)
    (hget : getCurrentInstanceCount config w app.ID g = ((c, none), g1))
    (hpos : 0 < agentCountFor app agents) (hne : agentCountFor app agents ≠ c)
    (h409 : w.http (putRequest config app.ID (agentCountFor app agents))
      = HttpResult.response 409 body) :
    updateInstanceCount config w (agentCountFor app agents) app.ID g1
        = (some "409 status code (conflict) returned: 409",
            { g1 with sent := g1.sent ++ [putRequest config app.ID (agentCountFor app agents)] })
      ∧ processApp config w app agents g
        = { appsUpdatedCount := g.appsUpdatedCount,
            appsUpdatedErrorCount := g.appsUpdatedErrorCount + 1,
            sent := g.sent ++ [getRequest config app.ID,
              putRequest config app.ID (agentCountFor app agents)] } := by
  obtain ⟨hg1, hproc⟩ := processApp_of_get config w app agents g g1 c hget
  have hupd := updateInstanceCount_conflict config w (agentCountFor app agents) app.ID g1 body
    hdry h409
  refine ⟨hupd, ?_⟩
  rw [hproc, if_pos ⟨hpos, fun e => hne e.symm⟩, hupd, hg1]
  simp

/-- Witness of C9: every PUT is answered with 409; `allApp` has target 2 and
current count 3; the counters go from (4, 2) to (4, 3). -/
theorem processApp_conflict_counts_one_error_witness :
    processApp exampleConfig (exampleWorld 409) allApp twoAgents startGlobals
      = { appsUpdatedCount := 4, appsUpdatedErrorCount := 3,
          sent := [getRequest exampleConfig "/web", putRequest exampleConfig "/web" 2] } :=
  (processApp_conflict_counts_one_error exampleConfig (exampleWorld 409) allApp twoAgents
    startGlobals
    { startGlobals with sent := startGlobals.sent ++ [getRequest exampleConfig allApp.ID] } 3 []
    (by decide) (by decide) (by decide) (by decide) rfl).2

/-! ## The application registry -/

theorem lookup_mapSet_self (m : MarathonApps) (k : String) (v : MarathonApp) :
    (mapSet m k v).lookup k = some v := by
  induction m with
  | nil => simp [mapSet, List.lookup]
  | cons e rest ih =>
    obtain ⟨k', v'⟩ := e
    by_cases hk : k' = k
    · simp [mapSet, hk, List.lookup]
    · have hbeq : (k == k') = false := by simpa using fun e => hk e.symm
      simp [mapSet, hk, List.lookup, hbeq, ih]

theorem lookup_mapSet_ne (m : MarathonApps) (k k2 : String) (v : MarathonApp) (h : k2 ≠ k) :
    (mapSet m k v).lookup k2 = m.lookup k2 := by
  induction m with
  | nil =>
    have hbeq : (k2 == k) = false := by simpa using h
    simp [mapSet, List.lookup, hbeq]
  | cons e rest ih =>
    obtain ⟨k', v'⟩ := e
    by_cases hk : k' = k
    · have hbeq : (k2 == k) = false := by simpa using h
      have hbeq2 : (k2 == k') = false := by rw [hk]; exact hbeq
      simp [mapSet, hk, List.lookup, hbeq]
    · simp only [mapSet, if_neg hk, List.lookup]
      cases (k2 == k') <;> simp [ih]

theorem keys_mapSet (m : MarathonApps) (k : String) (v : MarathonApp) (k2 : String) :
    k2 ∈ (mapSet m k v).map Prod.fst ↔ k2 = k ∨ k2 ∈ m.map Prod.fst := by
  induction m with
  | nil => simp [mapSet]
  | cons e rest ih =>
    obtain ⟨k', v'⟩ := e
    by_cases hk : k' = k
    · simp [mapSet, hk]
    · simp only [mapSet, if_neg hk, List.map_cons, List.mem_cons, ih]
      tauto

theorem nodup_keys_mapSet (m : MarathonApps) (k : String) (v : MarathonApp)
    (h : (m.map Prod.fst).Nodup) : ((mapSet m k v).map Prod.fst).Nodup := by
  induction m with
  | nil => simp [mapSet]
  | cons e rest ih =>
    obtain ⟨k', v'⟩ := e
    rw [List.map_cons, List.nodup_cons] at h
    by_cases hk : k' = k
    · simp only [mapSet, if_pos hk, List.map_cons, List.nodup_cons]
      exact ⟨by rw [← hk]; exact h.1, h.2⟩
    · simp only [mapSet, if_neg hk, List.map_cons, List.nodup_cons]
      refine ⟨?_, ih h.2⟩
      rw [keys_mapSet]
      rintro (e | e)
      · exact hk e
      · exact h.1 e

theorem lookup_eq_none_of_not_mem_keys (m : MarathonApps) (k : String)
    (h : k ∉ m.map Prod.fst) : m.lookup k = none := by
  induction m with
  | nil => rfl
  | cons e rest ih =>
    obtain ⟨k', v'⟩ := e
    simp only [List.map_cons, List.mem_cons, not_or] at h
    have hbeq : (k == k') = false := by simpa using h.1
    simp [List.lookup, hbeq, ih h.2]

/-- The entry `parseStep` writes for an application carrying the label value `val`. -/
theorem parseStep_labelled (m : MarathonApps) (app : AppRecord) (val : String)
    (h : app.Labels.lookup marathonLabelName = some val) :
    parseStep m app = mapSet m app.ID
      (if val = "all" then { Attributes := "", ID := app.ID, Typ := "all" }
        else { Attributes := val, ID := app.ID, Typ := "attr" }) := by
  unfold parseStep
  rw [h]
  by_cases hv : val = "all"
  · simp [hv, marathonLabelAllName, MarathonApp.zero]
  · simp [hv, marathonLabelAllName, marathonLabelAttrName, MarathonApp.zero]

theorem parseStep_unlabelled (m : MarathonApps) (app : AppRecord)
    (h : app.Labels.lookup marathonLabelName = none) : parseStep m app = m := by
  unfold parseStep
  rw [h]

theorem parseStep_cases (m : MarathonApps) (app : AppRecord) :
    (app.Labels.lookup marathonLabelName = none ∧ parseStep m app = m)
      ∨ ∃ e : MarathonApp, (app.Labels.lookup marathonLabelName).isSome ∧ e.ID = app.ID
          ∧ parseStep m app = mapSet m app.ID e := by
  cases h : app.Labels.lookup marathonLabelName with
  | none => exact Or.inl ⟨rfl, parseStep_unlabelled m app h⟩
  | some val =>
    refine Or.inr ⟨_, rfl, ?_, parseStep_labelled m app val h⟩
    by_cases hv : val = "all" <;> simp [hv]

theorem foldl_parseStep_keys (apps : List AppRecord) (m : MarathonApps) (k : String) :
    k ∈ (apps.foldl parseStep m).map Prod.fst
      ↔ k ∈ m.map Prod.fst
        ∨ ∃ app ∈ apps, app.ID = k ∧ (app.Labels.lookup marathonLabelName).isSome := by
  induction apps generalizing m with
  | nil => simp
  | cons x xs ih =>
    rw [List.foldl_cons, ih]
    rcases parseStep_cases m x with ⟨hnone, hstep⟩ | ⟨e, hsome, _, hstep⟩
    · rw [hstep]
      simp only [List.mem_cons, exists_eq_or_imp, hnone]
      simp
    · rw [hstep, keys_mapSet]
      simp only [List.mem_cons, exists_eq_or_imp, hsome]
      constructor
      · rintro ((h | h) | h)
        · exact Or.inr (Or.inl ⟨h.symm, trivial⟩)
        · exact Or.inl h
        · exact Or.inr (Or.inr h)
      · rintro (h | h | h)
        · exact Or.inl (Or.inr h)
        · exact Or.inl (Or.inl h.1.symm)
        · exact Or.inr h

theorem foldl_parseStep_nodup (apps : List AppRecord) (m : MarathonApps)
    (h : (m.map Prod.fst).Nodup) : ((apps.foldl parseStep m).map Prod.fst).Nodup := by
  induction apps generalizing m with
  | nil => exact h
  | cons x xs ih =>
    rw [List.foldl_cons]
    apply ih
    rcases parseStep_cases m x with ⟨_, hstep⟩ | ⟨e, _, _, hstep⟩
    · rw [hstep]; exact h
    · rw [hstep]; exact nodup_keys_mapSet m x.ID e h

theorem foldl_parseStep_entry_id (apps : List AppRecord) (m : MarathonApps)
    (hm : ∀ k e, m.lookup k = some e → e.ID = k) :
    ∀ k e, (apps.foldl parseStep m).lookup k = some e → e.ID = k := by
  induction apps generalizing m with
  | nil => exact hm
  | cons x xs ih =>
    rw [List.foldl_cons]
    apply ih
    rcases parseStep_cases m x with ⟨_, hstep⟩ | ⟨e, _, hid, hstep⟩
    · rw [hstep]; exact hm
    · rw [hstep]
      intro k e2 hl
      by_cases hk : k = x.ID
      · rw [hk, lookup_mapSet_self] at hl
        rw [hk, ← Option.some.inj hl]
        exact hid
      · rw [lookup_mapSet_ne m x.ID k e hk] at hl
        exact hm k e2 hl

theorem foldl_parseStep_lookup_other (apps : List AppRecord) (m : MarathonApps) (k : String)
    (hk : k ∉ apps.map (fun app => app.ID)) :
    (apps.foldl parseStep m).lookup k = m.lookup k := by
  induction apps generalizing m with
  | nil => rfl
  | cons x xs ih =>
    simp only [List.map_cons, List.mem_cons, not_or] at hk
    rw [List.foldl_cons, ih _ hk.2]
    rcases parseStep_cases m x with ⟨_, hstep⟩ | ⟨e, _, _, hstep⟩
    · rw [hstep]
    · rw [hstep, lookup_mapSet_ne m x.ID k e hk.1]

theorem foldl_parseStep_lookup (apps : List AppRecord) (m : MarathonApps)
    (hnd : (apps.map (fun app => app.ID)).Nodup) (app : AppRecord) (happ : app ∈ apps)
    (val : String) (hval : app.Labels.lookup marathonLabelName = some val) :
    (apps.foldl parseStep m).lookup app.ID
      = some (if val = "all" then { Attributes := "", ID := app.ID, Typ := "all" }
          else { Attributes := val, ID := app.ID, Typ := "attr" }) := by
  induction apps generalizing m with
  | nil => simp at happ
  | cons x xs ih =>
    rw [List.map_cons, List.nodup_cons] at hnd
    rw [List.foldl_cons]
    rcases List.mem_cons.1 happ with h | h
    · subst h
      rw [foldl_parseStep_lookup_other xs _ app.ID hnd.1, parseStep_labelled m app val hval,
        lookup_mapSet_self]
    · exact ih _ hnd.2 h

/-- C10: for a listing that decodes to applications with distinct IDs,
`MarathonApps.Parse` returns no error and leaves a map whose keys are exactly the
IDs of the applications carrying the label "daemonset" (no key twice); every
entry's `ID` equals its key; the entry of a labelled application has `Type` "all"
and empty `Attributes` when the label value is "all" and only then, and otherwise
`Type` "attr" with `Attributes` equal to the label value unchanged; an
application without the label has no entry. -/
theorem Parse_registers_labelled_apps
    (unmarshal : List UInt8 → Except String (List AppRecord)) (m : MarathonApps)
    (data : List UInt8) (apps : List AppRecord) (hdec : unmarshal data = Except.ok apps)
    (hnd : (apps.map (fun app => app.ID)).Nodup) :
    (MarathonApps.Parse unmarshal m data).2 = none
      ∧ (∀ k, k ∈ (MarathonApps.Parse unmarshal m data).1.map Prod.fst
          ↔ ∃ app ∈ apps, app.ID = k ∧ (app.Labels.lookup "daemonset").isSome)
      ∧ ((MarathonApps.Parse unmarshal m data).1.map Prod.fst).Nodup
      ∧ (∀ k e, (MarathonApps.Parse unmarshal m data).1.lookup k = some e → e.ID = k)
      ∧ (∀ app ∈ apps, ∀ val, app.Labels.lookup "daemonset" = some val →
          (MarathonApps.Parse unmarshal m data).1.lookup app.ID
            = some (if val = "all" then { Attributes := "", ID := app.ID, Typ := "all" }
                else { Attributes := val, ID := app.ID, Typ := "attr" }))
      ∧ (∀ app ∈ apps, ∀ val e, app.Labels.lookup "daemonset" = some val →
          (MarathonApps.Parse unmarshal m data).1.lookup app.ID = some e →
          ((e.Typ = "all" ∧ e.Attributes = "") ↔ val = "all"))
      ∧ (∀ app ∈ apps, app.Labels.lookup "daemonset" = none →
          (MarathonApps.Parse unmarshal m data).1.lookup app.ID = none) := by
  have hparse : MarathonApps.Parse unmarshal m data = (apps.foldl parseStep [], none) := by
    unfold MarathonApps.Parse
    rw [hdec]
  rw [hparse]
  have hkeys : ∀ k, k ∈ (apps.foldl parseStep []).map Prod.fst
      ↔ ∃ app ∈ apps, app.ID = k ∧ (app.Labels.lookup "daemonset").isSome := by
    intro k
    have h := foldl_parseStep_keys apps [] k
    simpa [marathonLabelName] using h
  have hentry : ∀ app ∈ apps, ∀ val, app.Labels.lookup "daemonset" = some val →
      (apps.foldl parseStep []).lookup app.ID
        = some (if val = "all" then { Attributes := "", ID := app.ID, Typ := "all" }
            else { Attributes := val, ID := app.ID, Typ := "attr" }) :=
    fun app happ val hval => foldl_parseStep_lookup apps [] hnd app happ val hval
  refine ⟨rfl, hkeys, foldl_parseStep_nodup apps [] (by simp), ?_, hentry, ?_, ?_⟩
  · exact foldl_parseStep_entry_id apps [] (by intro k e h; simp at h)
  · intro app happ val e hval hl
    rw [hentry app happ val hval] at hl
    have he := Option.some.inj hl
    by_cases hv : val = "all"
    · rw [if_pos hv] at he
      rw [← he]
      simp [hv]
    · rw [if_neg hv] at he
      rw [← he]
      simp [hv]
  · intro app happ hnone
    apply lookup_eq_none_of_not_mem_keys
    rw [hkeys]
    rintro ⟨app2, happ2, hid, hsome⟩
    have heq : app2 = app :=
      List.inj_on_of_nodup_map hnd happ2 happ hid
    rw [heq, hnone] at hsome
    simp at hsome

/-- Witness of C10 on `exampleListing`: "/web" is labelled "all", "/db" carries no
daemonset label, "/cache" is labelled "tier|private". -/
theorem Parse_registers_labelled_apps_witness :
    (exampleListing.map (fun app => app.ID)).Nodup
      ∧ (MarathonApps.Parse (fun _ => Except.ok exampleListing) [] []).1.lookup "/web"
        = some { Attributes := "", ID := "/web", Typ := "all" }
      ∧ (MarathonApps.Parse (fun _ => Except.ok exampleListing) [] []).1.lookup "/cache"
        = some { Attributes := "tier|private", ID := "/cache", Typ := "attr" }
      ∧ (MarathonApps.Parse (fun _ => Except.ok exampleListing) [] []).1.lookup "/db" = none :=
  ⟨by decide,
    (Parse_registers_labelled_apps (fun _ => Except.ok exampleListing) [] [] exampleListing rfl
      (by decide)).2.2.2.2.1 { ID := "/web", Instances := 2, Labels := [("daemonset", "all")] }
      (by simp [exampleListing]) "all" rfl,
    (Parse_registers_labelled_apps (fun _ => Except.ok exampleListing) [] [] exampleListing rfl
      (by decide)).2.2.2.2.1
      { ID := "/cache", Instances := 3, Labels := [("daemonset", "tier|private")] }
      (by simp [exampleListing]) "tier|private" rfl,
    (Parse_registers_labelled_apps (fun _ => Except.ok exampleListing) [] [] exampleListing rfl
      (by decide)).2.2.2.2.2.2 { ID := "/db", Instances := 1, Labels := [("owner", "ops")] }
      (by simp [exampleListing]) rfl⟩

/-! ## The registry from one cycle to the next -/

/-- When the body does not decode, `Parse` returns the registry it was given. -/
theorem Parse_failure_keeps_registry
    (unmarshal : List UInt8 → Except String (List AppRecord)) (m : MarathonApps)
    (data : List UInt8) (err : String) (h : unmarshal data = Except.error err) :
    MarathonApps.Parse unmarshal m data = (m, some err) := by
  unfold MarathonApps.Parse
  rw [h]

/-- When the body decodes, every key of the registry is the ID of a labelled
application of the listing, whatever the registry was before. -/
theorem Parse_decoded_registry_only_listed
    (unmarshal : List UInt8 → Except String (List AppRecord)) (m : MarathonApps)
    (data : List UInt8) (apps : List AppRecord) (h : unmarshal data = Except.ok apps)
    (k : String) (hk : k ∈ (MarathonApps.Parse unmarshal m data).1.map Prod.fst) :
    ∃ app ∈ apps, app.ID = k ∧ (app.Labels.lookup marathonLabelName).isSome := by
  unfold MarathonApps.Parse at hk
  rw [h] at hk
  have hkeys := (foldl_parseStep_keys apps [] k).1 hk
  simpa using hkeys

/-- A listing call answered with a status other than 200 hands `Parse` the `nil`
body and reports no error. -/
theorem Get_non200 (config : Config) (w : World) (g : Globals) (code : Int)
    (body : List UInt8) (hcode : code ≠ 200)
    (h : w.http { method := "GET", url := config.MarathonHost ++ marathonAppPath, body := none,
                  authorization :=
                    if config.Authorization ≠ "" then some config.Authorization else none }
      = HttpResult.response code body) :
    (MarathonApps.Get config w g).1 = ([], none) := by
  unfold MarathonApps.Get HttpGet HttpRequest
  simp only [h, if_neg hcode]

/-- The registry after a cycle is what `Parse` made of the body returned by `Get`. -/
theorem processAppsCycle_registry (config : Config) (w : World) (d : Decoders)
    (s : LoopState) :
    (processAppsCycle config w d s).marathonApps
      = (MarathonApps.Parse d.unmarshalApps s.marathonApps
          (MarathonApps.Get config w s.globals).1.1).1 := by
  unfold processAppsCycle
  rcases MarathonApps.Get config w s.globals with ⟨⟨appData, err⟩, g1⟩
  dsimp only
  split
  · rfl
  · split
    · rfl
    · split <;> rfl

/-- Whenever the body returned by `Get` does not decode, the cycle keeps the
registry of the previous cycle. -/
theorem processAppsCycle_keeps_registry_on_failure (config : Config) (w : World)
    (d : Decoders) (s : LoopState) (err : String)
    (h : d.unmarshalApps (MarathonApps.Get config w s.globals).1.1 = Except.error err) :
    (processAppsCycle config w d s).marathonApps = s.marathonApps := by
  rw [processAppsCycle_registry, Parse_failure_keeps_registry _ _ _ err h]

/-- C11 fails on the code.  The previous cycle left the registry `staleRegistry`
(the application "/old"); in this cycle the listing call is answered with status
503, or fails in transport, or returns a body that does not decode.  In all three
cases the registry after the cycle is still `staleRegistry` and the cycle has
sent the PUT that sets "/old" to 2 instances: an application absent from this
cycle's listing response is carried over and reconciled.  With a decodable body
the registry is the one of the listing and "/old" is gone. -/
theorem processAppsCycle_reconciles_stale_registry :
    (MarathonApps.Get exampleConfig (listingWorld (HttpResult.response 503 [])) startGlobals).1
        = ([], none)
      ∧ (processAppsCycle exampleConfig (listingWorld (HttpResult.response 503 []))
          exampleDecoders staleState).marathonApps = staleRegistry
      ∧ putRequest exampleConfig "/old" 2
          ∈ (processAppsCycle exampleConfig (listingWorld (HttpResult.response 503 []))
              exampleDecoders staleState).globals.sent
      ∧ (processAppsCycle exampleConfig (listingWorld (HttpResult.failure "timeout"))
          exampleDecoders staleState).marathonApps = staleRegistry
      ∧ putRequest exampleConfig "/old" 2
          ∈ (processAppsCycle exampleConfig (listingWorld (HttpResult.failure "timeout"))
              exampleDecoders staleState).globals.sent
      ∧ (processAppsCycle exampleConfig (listingWorld (HttpResult.response 200 [60]))
          exampleDecoders staleState).marathonApps = staleRegistry
      ∧ putRequest exampleConfig "/old" 2
          ∈ (processAppsCycle exampleConfig (listingWorld (HttpResult.response 200 [60]))
              exampleDecoders staleState).globals.sent
      ∧ (processAppsCycle exampleConfig (listingWorld (HttpResult.response 200 [123]))
          exampleDecoders staleState).marathonApps
        = [("/web", { Attributes := "", ID := "/web", Typ := "all" }),
           ("/cache", { Attributes := "tier|private", ID := "/cache", Typ := "attr" })]
      ∧ putRequest exampleConfig "/old" 2
          ∉ (processAppsCycle exampleConfig (listingWorld (HttpResult.response 200 [123]))
              exampleDecoders staleState).globals.sent := by
  decide

end MarathonDaemonset
